import Mathlib

/-!
Shallow embedding of the termlog terminal-logging library (termlog.go).

Modelling conventions:
- Colours: ANSI escape generation is delegated to an external colour
  library, so a colour is an opaque tag (the attribute passed to
  `color.New`).  A call `c.Printf(format, args...)` is one write event
  carrying the tag and the formatted text.
- Time: `time.Now().Format(l.TimeFmt)` is delegated to the date/time
  facility; every flush takes the already-formatted timestamp string as an
  explicit parameter `ts`.
- `fmt`-style formatting is modelled by `sprintf` for string arguments
  (`%s`/`%v` verbs); no claim exercises the formatting itself.
- Go's `map[string]bool` used for the enabled set is modelled by a list of
  names; the code only ever tests presence (`_, ok := l.enabled[name]`)
  and inserts (`l.enabled[name] = true`).
-/

/-- Colour attribute tags, as passed to `color.New` in `DefaultPalette`. -/
inductive Color where
  | unstyled
  | fgBlue
  | fgYellow
  | fgRed
  | fgCyan
deriving DecidableEq, Repr

/-- Palette defines the colour of output (struct `Palette`). -/
structure Palette where
  timestamp : Color
  say : Color
  notice : Color
  warn : Color
  shout : Color
deriving DecidableEq, Repr

/-- DefaultPalette: Say terminal default, Notice blue, Warn yellow, Shout red,
Timestamp cyan. -/
def DefaultPalette : Palette :=
  { say := .unstyled
    notice := .fgBlue
    warn := .fgYellow
    shout := .fgRed
    timestamp := .fgCyan }

/-- A single log line (struct `line`): channel name, colour, format, args. -/
structure line where
  name : String
  color : Color
  format : String
  args : List String
deriving DecidableEq, Repr

/-- Log is the top-level log structure.  The mutex is not part of the
functional state; it is modelled separately by the trace semantics below. -/
structure Log where
  palette : Palette
  timeFmt : String
  enabled : List String
  quiet : Bool
deriving DecidableEq, Repr

/-- Constant `defaultTimeFmt = "15:04:05: "`. -/
def defaultTimeFmt : String := "15:04:05: "

/-- Constant `indent = "  "` (two spaces). -/
def indent : String := "  "

/-- NewLog creates a new Log instance with the default palette, the default
time format and the empty channel pre-enabled.  (The terminal check only
touches the process-wide colour switch, kept in `World.noColor`.) -/
def NewLog : Log :=
  { palette := DefaultPalette
    timeFmt := defaultTimeFmt
    enabled := [""]
    quiet := false }

/-- Enable logging for a specified name (`l.enabled[name] = true`). -/
def Log.Enable (l : Log) (name : String) : Log :=
  if name ∈ l.enabled then l else { l with enabled := name :: l.enabled }

/-- Quiet disables all output (`l.quiet = true`). -/
def Log.Quiet (l : Log) : Log := { l with quiet := true }

/-- Minimal model of Go `fmt` formatting for string arguments: `%s` and `%v`
consume the next argument, `%%` is a literal percent. -/
def sprintfAux : List Char → List String → List Char
  | [], _ => []
  | '%' :: '%' :: cs, args => '%' :: sprintfAux cs args
  | '%' :: 's' :: cs, a :: args => a.data ++ sprintfAux cs args
  | '%' :: 'v' :: cs, a :: args => a.data ++ sprintfAux cs args
  | '%' :: 's' :: cs, [] => "%!s(MISSING)".data ++ sprintfAux cs []
  | '%' :: 'v' :: cs, [] => "%!v(MISSING)".data ++ sprintfAux cs []
  | c :: cs, args => c :: sprintfAux cs args

/-- Render a format string with its arguments. -/
def sprintf (format : String) (args : List String) : String :=
  ⟨sprintfAux format.data args⟩

/-- One write event on the sink: a `c.Printf` call of the colour library. -/
structure Write where
  color : Color
  text : String
deriving DecidableEq, Repr

/-- The timestamp write of a batch:
`l.Palette.Timestamp.Printf("%s", time.Now().Format(l.TimeFmt))`. -/
def tsWrite (l : Log) (ts : String) : Write := ⟨l.palette.timestamp, ts⟩

/-- The write for the first surviving line of a batch:
`line.color.Printf(line.format + "\n", line.args...)`. -/
def lineWriteFirst (ln : line) : Write :=
  ⟨ln.color, sprintf ln.format ln.args ++ "\n"⟩

/-- The write for a subsequent surviving line of a batch:
`line.color.Printf(indent + line.format + "\n", line.args...)`. -/
def lineWriteIndent (ln : line) : Write :=
  ⟨ln.color, indent ++ sprintf ln.format ln.args ++ "\n"⟩

/-- The loop body of `Log.output`: iterate over the batch with the `first`
flag, skipping lines whose channel is not enabled. -/
def outputLoop (l : Log) (ts : String) : List line → Bool → List Write
  | [], _ => []
  | ln :: rest, first =>
    if ln.name ∈ l.enabled then
      if first then
        tsWrite l ts :: lineWriteFirst ln :: outputLoop l ts rest false
      else
        lineWriteIndent ln :: outputLoop l ts rest false
    else outputLoop l ts rest first

/-- Function `output(quiet, lines...)`: returns early when quiet or when the
batch is empty, otherwise renders the batch (the lock is modelled by the trace
semantics below). -/
def Log.output (l : Log) (quiet : Bool) (lines : List line) (ts : String) :
    List Write :=
  if quiet then []
  else if lines.isEmpty then []
  else outputLoop l ts lines true

/-- Say logs a line on the default channel. -/
def Log.Say (l : Log) (format : String) (args : List String) (ts : String) :
    List Write :=
  l.output l.quiet [⟨"", l.palette.say, format, args⟩] ts

/-- Notice logs a line with the Notice colour. -/
def Log.Notice (l : Log) (format : String) (args : List String) (ts : String) :
    List Write :=
  l.output l.quiet [⟨"", l.palette.notice, format, args⟩] ts

/-- Warn logs a line with the Warn colour. -/
def Log.Warn (l : Log) (format : String) (args : List String) (ts : String) :
    List Write :=
  l.output l.quiet [⟨"", l.palette.warn, format, args⟩] ts

/-- Shout logs a line with the Shout colour. -/
def Log.Shout (l : Log) (format : String) (args : List String) (ts : String) :
    List Write :=
  l.output l.quiet [⟨"", l.palette.shout, format, args⟩] ts

/-- SayAs logs a line on a named channel. -/
def Log.SayAs (l : Log) (name format : String) (args : List String)
    (ts : String) : List Write :=
  l.output l.quiet [⟨name, l.palette.say, format, args⟩] ts

/-- NoticeAs logs a line on a named channel with the Notice colour. -/
def Log.NoticeAs (l : Log) (name format : String) (args : List String)
    (ts : String) : List Write :=
  l.output l.quiet [⟨name, l.palette.notice, format, args⟩] ts

/-- WarnAs logs a line on a named channel with the Warn colour. -/
def Log.WarnAs (l : Log) (name format : String) (args : List String)
    (ts : String) : List Write :=
  l.output l.quiet [⟨name, l.palette.warn, format, args⟩] ts

/-- ShoutAs logs a line on a named channel with the Shout colour. -/
def Log.ShoutAs (l : Log) (name format : String) (args : List String)
    (ts : String) : List Write :=
  l.output l.quiet [⟨name, l.palette.shout, format, args⟩] ts

/-- Struct `group`: palette copy, ordered line buffer, quiet flag.  The parent
logger reference is passed explicitly to `Done`. -/
structure group where
  palette : Palette
  lines : List line
  quiet : Bool
deriving DecidableEq, Repr

/-- Group creates a new log group, copying the palette and the logger's
current quiet flag, with a fresh empty buffer. -/
def Log.Group (l : Log) : group :=
  { palette := l.palette, lines := [], quiet := l.quiet }

/-- Method `addLine`: append a line to the group buffer (no enablement check,
no reference to the parent logger's state). -/
def group.addLine (g : group) (name : String) (color : Color)
    (format : String) (args : List String) : group :=
  { g with lines := g.lines ++ [⟨name, color, format, args⟩] }

/-- Group Say. -/
def group.Say (g : group) (format : String) (args : List String) : group :=
  g.addLine "" g.palette.say format args

/-- Group Notice. -/
def group.Notice (g : group) (format : String) (args : List String) : group :=
  g.addLine "" g.palette.notice format args

/-- Group Warn. -/
def group.Warn (g : group) (format : String) (args : List String) : group :=
  g.addLine "" g.palette.warn format args

/-- Group Shout. -/
def group.Shout (g : group) (format : String) (args : List String) : group :=
  g.addLine "" g.palette.shout format args

/-- Group SayAs. -/
def group.SayAs (g : group) (name format : String) (args : List String) :
    group :=
  g.addLine name g.palette.say format args

/-- Group NoticeAs. -/
def group.NoticeAs (g : group) (name format : String) (args : List String) :
    group :=
  g.addLine name g.palette.notice format args

/-- Group WarnAs. -/
def group.WarnAs (g : group) (name format : String) (args : List String) :
    group :=
  g.addLine name g.palette.warn format args

/-- Group ShoutAs. -/
def group.ShoutAs (g : group) (name format : String) (args : List String) :
    group :=
  g.addLine name g.palette.shout format args

/-- Done outputs the group to screen: `g.log.output(g.quiet, g.lines...)`. -/
def group.Done (g : group) (l : Log) (ts : String) : List Write :=
  l.output g.quiet g.lines ts

/-- Quiet disables output for this group. -/
def group.Quiet (g : group) : group := { g with quiet := true }

/-- The lines of a batch that survive the channel filter, in order. -/
def survivors (l : Log) : List line → List line
  | [] => []
  | ln :: rest =>
    if ln.name ∈ l.enabled then ln :: survivors l rest else survivors l rest

/-- The four severities, used to dispatch the public emission methods in the
operation semantics below. -/
inductive Sev where
  | say
  | notice
  | warn
  | shout
deriving DecidableEq, Repr

/-- The palette colour an emission method of a given severity uses. -/
def Palette.colorFor (p : Palette) : Sev → Color
  | .say => p.say
  | .notice => p.notice
  | .warn => p.warn
  | .shout => p.shout

/-- Dispatch a direct `Log` emission (`Say`/`Notice`/`Warn`/`Shout`). -/
def Log.emit (l : Log) (s : Sev) (format : String) (args : List String)
    (ts : String) : List Write :=
  match s with
  | .say => l.Say format args ts
  | .notice => l.Notice format args ts
  | .warn => l.Warn format args ts
  | .shout => l.Shout format args ts

/-- Dispatch a named `Log` emission (`SayAs`/.../`ShoutAs`). -/
def Log.emitAs (l : Log) (s : Sev) (name format : String) (args : List String)
    (ts : String) : List Write :=
  match s with
  | .say => l.SayAs name format args ts
  | .notice => l.NoticeAs name format args ts
  | .warn => l.WarnAs name format args ts
  | .shout => l.ShoutAs name format args ts

/-- Dispatch a `group` emission (`Say`/.../`Shout`). -/
def group.emit (g : group) (s : Sev) (format : String) (args : List String) :
    group :=
  match s with
  | .say => g.Say format args
  | .notice => g.Notice format args
  | .warn => g.Warn format args
  | .shout => g.Shout format args

/-- Dispatch a named `group` emission (`SayAs`/.../`ShoutAs`). -/
def group.emitAs (g : group) (s : Sev) (name format : String)
    (args : List String) : group :=
  match s with
  | .say => g.SayAs name format args
  | .notice => g.NoticeAs name format args
  | .warn => g.WarnAs name format args
  | .shout => g.ShoutAs name format args

/-- Whole-program state: the Log, every group created so far (indexed by
creation order; Go callers hold the references, we hold them in a list), the
sequence of writes reaching `color.Output`, and the process-wide colour
switch `color.NoColor`. -/
structure World where
  log : Log
  groups : List group
  sink : List Write
  noColor : Bool
deriving DecidableEq, Repr

/-- One public API call.  Timestamps are carried by the operations that
flush, standing for the wall-clock reading at that call. -/
inductive Op where
  | enable (name : String)
  | quietLog
  | color (state : Bool)
  | emit (s : Sev) (format : String) (args : List String) (ts : String)
  | emitAs (s : Sev) (name format : String) (args : List String) (ts : String)
  | newGroup
  | gEmit (gi : Nat) (s : Sev) (format : String) (args : List String)
  | gEmitAs (gi : Nat) (s : Sev) (name format : String) (args : List String)
  | gQuiet (gi : Nat)
  | gDone (gi : Nat) (ts : String)
deriving DecidableEq, Repr

/-- Update the group at index `gi`, if it exists. -/
def World.updGroup (w : World) (gi : Nat) (f : group → group) : World :=
  match w.groups[gi]? with
  | some g => { w with groups := w.groups.set gi (f g) }
  | none => w

/-- Small-step semantics of one API call. -/
def World.step (w : World) : Op → World
  | .enable n => { w with log := w.log.Enable n }
  | .quietLog => { w with log := w.log.Quiet }
  | .color b => { w with noColor := !b }
  | .emit s format args ts =>
    { w with sink := w.sink ++ w.log.emit s format args ts }
  | .emitAs s n format args ts =>
    { w with sink := w.sink ++ w.log.emitAs s n format args ts }
  | .newGroup => { w with groups := w.groups ++ [w.log.Group] }
  | .gEmit gi s format args => w.updGroup gi (fun g => g.emit s format args)
  | .gEmitAs gi s n format args =>
    w.updGroup gi (fun g => g.emitAs s n format args)
  | .gQuiet gi => w.updGroup gi group.Quiet
  | .gDone gi ts =>
    match w.groups[gi]? with
    | some g => { w with sink := w.sink ++ g.Done w.log ts }
    | none => w

/-- Run a sequence of API calls. -/
def World.run (w : World) (ops : List Op) : World := ops.foldl World.step w

/-- The state right after `NewLog()`: `isTerm` is the result of the terminal
check, which only drives the process-wide colour switch. -/
def initWorld (isTerm : Bool) : World :=
  { log := NewLog, groups := [], sink := [], noColor := !isTerm }

/-- Concatenated text a list of writes puts on the sink. -/
def sinkText (ws : List Write) : String :=
  String.join (ws.map Write.text)

/-- Split a character stream into output lines at newline characters; a final
segment not terminated by a newline still counts as a line. -/
def splitLinesAux : List Char → List Char → List (List Char)
  | [], acc => if acc.isEmpty then [] else [acc.reverse]
  | c :: cs, acc =>
    if c = '\n' then acc.reverse :: splitLinesAux cs []
    else splitLinesAux cs (c :: acc)

/-- Output lines of a character stream. -/
def splitLines (s : List Char) : List (List Char) := splitLinesAux s []

/-- After the first surviving line has been printed, the loop renders exactly
the surviving lines, each with the indent prefix, in order. -/
theorem outputLoop_false (l : Log) (ts : String) :
    ∀ lines : List line,
      outputLoop l ts lines false = (survivors l lines).map lineWriteIndent
  | [] => rfl
  | ln :: rest => by
    by_cases h : ln.name ∈ l.enabled <;>
      simp [outputLoop, survivors, h, outputLoop_false l ts rest]

/-- While still looking for the first surviving line, the loop renders the
timestamp, the first survivor un-indented, and the remaining survivors
indented, in order; nothing at all if no line survives. -/
theorem outputLoop_true (l : Log) (ts : String) :
    ∀ lines : List line,
      outputLoop l ts lines true =
        match survivors l lines with
        | [] => []
        | s0 :: rest =>
          tsWrite l ts :: lineWriteFirst s0 :: rest.map lineWriteIndent
  | [] => rfl
  | ln :: rest => by
    by_cases h : ln.name ∈ l.enabled
    · simp [outputLoop, survivors, h, outputLoop_false l ts rest]
    · simp [outputLoop, survivors, h, outputLoop_true l ts rest]

/-- Closed form of the flush path `output`: quiet drops everything, otherwise
the batch is the channel-filtered survivors rendered with a single timestamp. -/
theorem output_eq (l : Log) (q : Bool) (lines : List line) (ts : String) :
    Log.output l q lines ts =
      if q then []
      else
        match survivors l lines with
        | [] => []
        | s0 :: rest =>
          tsWrite l ts :: lineWriteFirst s0 :: rest.map lineWriteIndent := by
  cases q with
  | true => rfl
  | false =>
    cases lines with
    | nil => rfl
    | cons ln rest => simp [Log.output, outputLoop_true, List.isEmpty]

/-- A line of the batch whose channel is enabled is among the survivors. -/
theorem mem_survivors {l : Log} {ln : line} :
    ∀ {lines : List line}, ln ∈ lines → ln.name ∈ l.enabled →
      ln ∈ survivors l lines := by
  intro lines
  induction lines with
  | nil => intro h; cases h
  | cons hd tl ih =>
    intro hmem hen
    rcases List.mem_cons.1 hmem with h | h
    · subst h
      simp [survivors, hen]
    · by_cases hh : hd.name ∈ l.enabled <;> simp [survivors, hh, ih h hen]

/-- Every survivor of a non-quiet flush shows up in the output, rendered
either as the first line of the batch or indented. -/
theorem mem_output_of_enabled {l : Log} {ln : line} {lines : List line}
    (hmem : ln ∈ lines) (hen : ln.name ∈ l.enabled) (ts : String) :
    lineWriteFirst ln ∈ Log.output l false lines ts ∨
      lineWriteIndent ln ∈ Log.output l false lines ts := by
  have hs := mem_survivors hmem hen
  rw [output_eq]
  cases hsv : survivors l lines with
  | nil => rw [hsv] at hs; cases hs
  | cons s0 rest =>
    rw [hsv] at hs
    rcases List.mem_cons.1 hs with h | h
    · subst h; left; simp
    · right
      simp [List.mem_map]
      right
      exact Or.inr ⟨ln, h, rfl⟩

/-- C3: in every non-quiet flushed batch with at least one surviving line,
the first surviving line is preceded by the timestamp write (`ts` is the
current time formatted per the Logger's `TimeFmt`), every subsequent
surviving line carries the two-space indent prefix instead of a timestamp,
survivors keep the batch's original order, and every line write ends with a
newline. -/
theorem c3_batch_rendering (l : Log) (lines : List line) (ts : String)
    (s0 : line) (rest : List line)
    (h : survivors l lines = s0 :: rest) :
    Log.output l false lines ts =
      tsWrite l ts :: lineWriteFirst s0 :: rest.map lineWriteIndent ∧
    lineWriteFirst s0 = ⟨s0.color, sprintf s0.format s0.args ++ "\n"⟩ ∧
    (∀ w ∈ lineWriteFirst s0 :: rest.map lineWriteIndent,
      ∃ u : String, w.text = u ++ "\n") ∧
    (∀ ln ∈ rest,
      lineWriteIndent ln = ⟨ln.color, indent ++ sprintf ln.format ln.args ++ "\n"⟩) := by
  refine ⟨?_, rfl, ?_, fun ln _ => rfl⟩
  · rw [output_eq, h]
    rfl
  · intro w hw
    rcases List.mem_cons.1 hw with h1 | h1
    · exact ⟨sprintf s0.format s0.args, by rw [h1]; rfl⟩
    · rcases List.mem_map.1 h1 with ⟨ln, _, rfl⟩
      exact ⟨indent ++ sprintf ln.format ln.args, rfl⟩

/-- Witness for C3 on a concrete two-line batch. -/
theorem c3_batch_rendering_witness :
    survivors NewLog [⟨"", Color.unstyled, "a", []⟩, ⟨"", Color.fgBlue, "b", []⟩] =
      [⟨"", Color.unstyled, "a", []⟩, ⟨"", Color.fgBlue, "b", []⟩] ∧
    (Log.output NewLog false
        [⟨"", Color.unstyled, "a", []⟩, ⟨"", Color.fgBlue, "b", []⟩] "12:00:00: " =
      tsWrite NewLog "12:00:00: " ::
        lineWriteFirst ⟨"", Color.unstyled, "a", []⟩ ::
        [⟨"", Color.fgBlue, "b", []⟩].map lineWriteIndent ∧
    lineWriteFirst ⟨"", Color.unstyled, "a", []⟩ =
      ⟨Color.unstyled, sprintf "a" [] ++ "\n"⟩ ∧
    (∀ w ∈ lineWriteFirst ⟨"", Color.unstyled, "a", []⟩ ::
        [⟨"", Color.fgBlue, "b", []⟩].map lineWriteIndent,
      ∃ u : String, w.text = u ++ "\n") ∧
    (∀ ln ∈ [⟨"", Color.fgBlue, "b", []⟩],
      lineWriteIndent ln =
        ⟨line.color ln, indent ++ sprintf (line.format ln) (line.args ln) ++ "\n"⟩)) :=
  ⟨by decide,
   c3_batch_rendering NewLog
     [⟨"", Color.unstyled, "a", []⟩, ⟨"", Color.fgBlue, "b", []⟩] "12:00:00: "
     ⟨"", Color.unstyled, "a", []⟩ [⟨"", Color.fgBlue, "b", []⟩] (by decide)⟩

/-- C5: a batch in which the channel filter removes every line writes nothing
at all — not even a bare timestamp — and likewise a quiet batch, a group that
is created and immediately finished, and any group whose buffer is empty at
`Done()` write nothing. -/
theorem c5_empty_flush_writes_nothing (l : Log) (q : Bool) (lines : List line)
    (ts : String) (h : survivors l lines = []) :
    Log.output l q lines ts = [] ∧
    (∀ l2 : Log, ∀ ts2 : String, (l2.Group).Done l2 ts2 = []) ∧
    (∀ g : group, g.lines = [] → ∀ l3 : Log, ∀ ts3 : String,
      g.Done l3 ts3 = []) := by
  refine ⟨?_, ?_, ?_⟩
  · rw [output_eq, h]
    cases q <;> rfl
  · intro l2 ts2
    unfold group.Done Log.Group Log.output
    cases l2.quiet <;> rfl
  · intro g hg l3 ts3
    unfold group.Done Log.output
    rw [hg]
    cases g.quiet <;> rfl

/-- Witness for C5 on a batch whose only line sits on a disabled channel. -/
theorem c5_empty_flush_writes_nothing_witness :
    survivors NewLog [⟨"off", Color.unstyled, "x", []⟩] = [] ∧
    (Log.output NewLog true [⟨"off", Color.unstyled, "x", []⟩] "12:00:00: " = [] ∧
    (∀ l2 : Log, ∀ ts2 : String, (l2.Group).Done l2 ts2 = []) ∧
    (∀ g : group, g.lines = [] → ∀ l3 : Log, ∀ ts3 : String,
      g.Done l3 ts3 = [])) :=
  ⟨by decide,
   c5_empty_flush_writes_nothing NewLog true [⟨"off", Color.unstyled, "x", []⟩]
     "12:00:00: " (by decide)⟩

/-- Channel `n` is enabled after `Enable(n)`. -/
theorem mem_enable (l : Log) (n : String) : n ∈ (l.Enable n).enabled := by
  unfold Log.Enable
  by_cases h : n ∈ l.enabled <;> simp [h]

/-- C2: a line appended to a (non-quiet) Group on channel `c` before
`Enable(c)` is rendered in the output of a `Done()` that runs after the
enable: the channel filter consults the Logger's enabled set at flush time,
not at append time (`addLine` never reads the Logger's state). -/
theorem c2_enable_before_done (l : Log) (g : group) (c format : String)
    (args : List String) (ts : String) (hq : g.quiet = false) :
    lineWriteFirst ⟨c, g.palette.say, format, args⟩ ∈
        (g.SayAs c format args).Done (l.Enable c) ts ∨
      lineWriteIndent ⟨c, g.palette.say, format, args⟩ ∈
        (g.SayAs c format args).Done (l.Enable c) ts := by
  have hmem : (⟨c, g.palette.say, format, args⟩ : line) ∈
      (g.SayAs c format args).lines := by
    unfold group.SayAs group.addLine
    simp
  have hdone : (g.SayAs c format args).Done (l.Enable c) ts =
      (l.Enable c).output false (g.SayAs c format args).lines ts := by
    unfold group.Done
    rw [show (g.SayAs c format args).quiet = g.quiet from rfl, hq]
  rw [hdone]
  exact mem_output_of_enabled hmem (mem_enable l c) ts

/-- Witness for C2: a fresh group, channel "debug" enabled only after the
append. -/
theorem c2_enable_before_done_witness :
    (NewLog.Group).quiet = false ∧
    (lineWriteFirst ⟨"debug", (NewLog.Group).palette.say, "d", []⟩ ∈
        ((NewLog.Group).SayAs "debug" "d" []).Done (NewLog.Enable "debug")
          "12:00:00: " ∨
      lineWriteIndent ⟨"debug", (NewLog.Group).palette.say, "d", []⟩ ∈
        ((NewLog.Group).SayAs "debug" "d" []).Done (NewLog.Enable "debug")
          "12:00:00: ") :=
  ⟨rfl, c2_enable_before_done NewLog NewLog.Group "debug" "d" [] "12:00:00: " rfl⟩

/-- C7: a Group marked `Quiet()` produces zero writes at `Done()` whatever
its buffer holds; appending after `Quiet()` is legal (the buffer grows as
usual) and those lines are likewise discarded at `Done()`. -/
theorem c7_group_quiet_discards (g : group) (l : Log) (ts : String)
    (n : String) (c : Color) (format : String) (args : List String) :
    (g.Quiet).Done l ts = [] ∧
    ((g.Quiet).addLine n c format args).lines =
      g.lines ++ [⟨n, c, format, args⟩] ∧
    ((g.Quiet).addLine n c format args).Done l ts = [] := by
  refine ⟨rfl, rfl, rfl⟩

/-- C6: `Log.Quiet()` sets the Logger's quiet flag, after which every direct
emission through that Logger writes nothing; a Group created before the call
keeps the quiet flag it copied at `Group()` time and, absent its own
`Quiet()`, still emits its buffer at `Done()` even through the now-quiet
Logger. -/
theorem c6_logger_quiet_spares_existing_groups (l : Log) (format : String)
    (args : List String) (ts2 : String)
    (hq : l.quiet = false) (he : "" ∈ l.enabled) :
    (l.Quiet).quiet = true ∧
    (∀ lines : List line, ∀ ts3 : String,
      Log.output (l.Quiet) (l.Quiet).quiet lines ts3 = []) ∧
    (∀ f2 : String, ∀ a2 : List String, ∀ t2 : String,
      (l.Quiet).Say f2 a2 t2 = [] ∧ (l.Quiet).Shout f2 a2 t2 = []) ∧
    (l.Group).quiet = false ∧
    ((l.Group).Say format args).Done (l.Quiet) ts2 =
      [tsWrite (l.Quiet) ts2, lineWriteFirst ⟨"", l.palette.say, format, args⟩] := by
  refine ⟨rfl, fun lines ts3 => rfl, fun f2 a2 t2 => ⟨rfl, rfl⟩, hq, ?_⟩
  show Log.output (l.Quiet) l.quiet ([] ++ [⟨"", l.palette.say, format, args⟩]) ts2 = _
  rw [hq, output_eq]
  have hsv : survivors (l.Quiet) ([] ++ [⟨"", l.palette.say, format, args⟩]) =
      [⟨"", l.palette.say, format, args⟩] := by
    show survivors (l.Quiet) [⟨"", l.palette.say, format, args⟩] = _
    unfold survivors
    rw [if_pos (show ("" : String) ∈ (l.Quiet).enabled from he)]
    rfl
  rw [hsv]
  rfl

/-- Witness for C6 starting from `NewLog`. -/
theorem c6_logger_quiet_spares_existing_groups_witness :
    NewLog.quiet = false ∧ "" ∈ NewLog.enabled ∧
    ((NewLog.Quiet).quiet = true ∧
    (∀ lines : List line, ∀ ts3 : String,
      Log.output (NewLog.Quiet) (NewLog.Quiet).quiet lines ts3 = []) ∧
    (∀ f2 : String, ∀ a2 : List String, ∀ t2 : String,
      (NewLog.Quiet).Say f2 a2 t2 = [] ∧ (NewLog.Quiet).Shout f2 a2 t2 = []) ∧
    (NewLog.Group).quiet = false ∧
    ((NewLog.Group).Say "hello" []).Done (NewLog.Quiet) "12:00:00: " =
      [tsWrite (NewLog.Quiet) "12:00:00: ",
        lineWriteFirst ⟨"", NewLog.palette.say, "hello", []⟩]) :=
  ⟨rfl, by decide,
   c6_logger_quiet_spares_existing_groups NewLog "hello" [] "12:00:00: " rfl
     (by decide)⟩

/-- C8 counterexample: a group flushed twice is not inert after the first
`Done()` — the second `Done()` flushes the same buffer again, so the sink
holds the batch twice instead of once. -/
theorem c8_counterexample_double_done :
    ((initWorld false).run
      [.newGroup, .gEmit 0 .say "a" [], .gDone 0 "T: ", .gDone 0 "T: "]).sink =
      [⟨.fgCyan, "T: "⟩, ⟨.unstyled, "a\n"⟩, ⟨.fgCyan, "T: "⟩,
        ⟨.unstyled, "a\n"⟩] ∧
    ((initWorld false).run
      [.newGroup, .gEmit 0 .say "a" [], .gDone 0 "T: "]).sink =
      [⟨.fgCyan, "T: "⟩, ⟨.unstyled, "a\n"⟩] := by
  decide

/-- C8 amended: `Done()` neither clears the buffer nor marks the group inert,
so a second `Done()` appends the very same rendered batch to the sink again
(the double-flush documented in the spec's design notes). -/
theorem c8_second_done_flushes_again (w : World) (gi : Nat) (g : group)
    (ts ts2 : String) (hg : w.groups[gi]? = some g) :
    (w.run [.gDone gi ts, .gDone gi ts2]).sink =
      w.sink ++ g.Done w.log ts ++ g.Done w.log ts2 ∧
    (w.run [.gDone gi ts, .gDone gi ts2]).groups = w.groups ∧
    (w.run [.gDone gi ts, .gDone gi ts2]).log = w.log := by
  simp [World.run, World.step, hg, List.append_assoc]

/-- Witness for the amended C8. -/
theorem c8_second_done_flushes_again_witness :
    (World.groups ((initWorld false).run [.newGroup, .gEmit 0 .say "a" []]))[0]? =
      some ⟨DefaultPalette, [⟨"", Color.unstyled, "a", []⟩], false⟩ ∧
    (((((initWorld false).run [.newGroup, .gEmit 0 .say "a" []])).run
        [.gDone 0 "T: ", .gDone 0 "U: "]).sink =
      ((initWorld false).run [.newGroup, .gEmit 0 .say "a" []]).sink ++
        (group.Done ⟨DefaultPalette, [⟨"", Color.unstyled, "a", []⟩], false⟩
          ((initWorld false).run [.newGroup, .gEmit 0 .say "a" []]).log "T: ") ++
        (group.Done ⟨DefaultPalette, [⟨"", Color.unstyled, "a", []⟩], false⟩
          ((initWorld false).run [.newGroup, .gEmit 0 .say "a" []]).log "U: ") ∧
    ((((initWorld false).run [.newGroup, .gEmit 0 .say "a" []])).run
        [.gDone 0 "T: ", .gDone 0 "U: "]).groups =
      ((initWorld false).run [.newGroup, .gEmit 0 .say "a" []]).groups ∧
    ((((initWorld false).run [.newGroup, .gEmit 0 .say "a" []])).run
        [.gDone 0 "T: ", .gDone 0 "U: "]).log =
      ((initWorld false).run [.newGroup, .gEmit 0 .say "a" []]).log) :=
  ⟨by decide,
   c8_second_done_flushes_again ((initWorld false).run [.newGroup, .gEmit 0 .say "a" []])
     0 ⟨DefaultPalette, [⟨"", Color.unstyled, "a", []⟩], false⟩ "T: " "U: "
     (by decide)⟩

/-- Enable never removes a channel: membership is preserved. -/
theorem enable_mono (l : Log) (n x : String) (h : x ∈ l.enabled) :
    x ∈ (l.Enable n).enabled := by
  unfold Log.Enable
  by_cases hn : n ∈ l.enabled
  · rw [if_pos hn]; exact h
  · rw [if_neg hn]; exact List.mem_cons_of_mem n h

/-- No API call removes a channel from the enabled set. -/
theorem step_enabled_mono (w : World) (o : Op) {x : String}
    (h : x ∈ w.log.enabled) : x ∈ (w.step o).log.enabled := by
  cases o with
  | enable n => exact enable_mono w.log n x h
  | quietLog => exact h
  | color b => exact h
  | emit s format args ts => exact h
  | emitAs s n format args ts => exact h
  | newGroup => exact h
  | gEmit gi s format args =>
    simp only [World.step, World.updGroup]
    split <;> exact h
  | gEmitAs gi s n format args =>
    simp only [World.step, World.updGroup]
    split <;> exact h
  | gQuiet gi =>
    simp only [World.step, World.updGroup]
    split <;> exact h
  | gDone gi ts =>
    simp only [World.step]
    split <;> exact h

/-- No sequence of API calls removes a channel from the enabled set. -/
theorem run_enabled_mono (ops : List Op) :
    ∀ (w : World) (x : String), x ∈ w.log.enabled →
      x ∈ (w.run ops).log.enabled := by
  induction ops with
  | nil => intro w x h; exact h
  | cons o rest ih =>
    intro w x h
    exact ih (w.step o) x (step_enabled_mono w o h)

/-- C10: from `NewLog()` on, the empty-string channel stays in the enabled
set through every sequence of API calls — no operation ever removes a
channel — so a default-channel line always survives the channel filter. -/
theorem c10_default_channel_stays_enabled (isTerm : Bool) (ops : List Op)
    (w : World) (x : String) (hw : x ∈ w.log.enabled) :
    "" ∈ ((initWorld isTerm).run ops).log.enabled ∧
    x ∈ (w.run ops).log.enabled ∧
    (∀ ln : line, ∀ lines : List line, ln ∈ lines → ln.name = "" →
      ln ∈ survivors ((initWorld isTerm).run ops).log lines) := by
  have h0 : "" ∈ (initWorld isTerm).log.enabled := by
    simp [initWorld, NewLog]
  have h1 := run_enabled_mono ops (initWorld isTerm) "" h0
  refine ⟨h1, run_enabled_mono ops w x hw, ?_⟩
  intro ln lines hmem hname
  exact mem_survivors hmem (hname ▸ h1)

/-- Witness for C10 on a concrete operation sequence. -/
theorem c10_default_channel_stays_enabled_witness :
    "on" ∈ (World.log ((initWorld false).step (.enable "on"))).enabled ∧
    ("" ∈ ((initWorld false).run
        [.enable "on", .quietLog, .newGroup, .gQuiet 0,
          .gDone 0 "T: "]).log.enabled ∧
    "on" ∈ (((initWorld false).step (.enable "on")).run
        [.enable "on", .quietLog, .newGroup, .gQuiet 0,
          .gDone 0 "T: "]).log.enabled ∧
    (∀ ln : line, ∀ lines : List line, ln ∈ lines → ln.name = "" →
      ln ∈ survivors (((initWorld false).run
        [.enable "on", .quietLog, .newGroup, .gQuiet 0,
          .gDone 0 "T: "]).log) lines)) :=
  ⟨by decide,
   c10_default_channel_stays_enabled false
     [.enable "on", .quietLog, .newGroup, .gQuiet 0, .gDone 0 "T: "]
     ((initWorld false).step (.enable "on")) "on" (by decide)⟩

/-- Unfolding equation of `splitLinesAux` on a cons cell. -/
theorem splitAux_cons (c : Char) (cs acc : List Char) :
    splitLinesAux (c :: cs) acc =
      if c = '\n' then acc.reverse :: splitLinesAux cs []
      else splitLinesAux cs (c :: acc) := rfl

/-- Unfolding equation of `splitLinesAux` on the empty stream. -/
theorem splitAux_empty (acc : List Char) :
    splitLinesAux [] acc = if acc.isEmpty then [] else [acc.reverse] := rfl

/-- Consuming a newline closes the accumulated line. -/
theorem splitAux_nl (cs acc : List Char) :
    splitLinesAux ('\n' :: cs) acc = acc.reverse :: splitLinesAux cs [] := by
  rw [splitAux_cons, if_pos rfl]

/-- A newline-free chunk only grows the accumulator. -/
theorem splitAux_no_nl :
    ∀ (s : List Char), '\n' ∉ s → ∀ (rest acc : List Char),
      splitLinesAux (s ++ rest) acc = splitLinesAux rest (s.reverse ++ acc)
  | [], _, rest, acc => by simp
  | c :: cs, h, rest, acc => by
    have hc : ¬ (c = '\n') := fun e => h (by rw [e]; exact List.mem_cons_self _ _)
    have h' : '\n' ∉ cs := fun hm => h (List.mem_cons_of_mem _ hm)
    rw [List.cons_append, splitAux_cons, if_neg hc,
      splitAux_no_nl cs h' rest (c :: acc)]
    congr 1
    simp

/-- A stream of two newline-terminated newline-free lines splits into exactly
those two lines. -/
theorem splitLines_two (a b : List Char) (ha : '\n' ∉ a) (hb : '\n' ∉ b) :
    splitLines (a ++ '\n' :: (b ++ ['\n'])) = [a, b] := by
  unfold splitLines
  rw [splitAux_no_nl a ha, splitAux_nl, splitAux_no_nl b hb, splitAux_nl,
    splitAux_empty]
  simp

/-- A single-line batch on a disabled channel writes nothing, quiet or not. -/
theorem output_disabled_single (l : Log) (q : Bool) (nm : String)
    (hnm : nm ∉ l.enabled) (c : Color) (format : String) (args : List String)
    (ts : String) :
    Log.output l q [⟨nm, c, format, args⟩] ts = [] := by
  rw [output_eq]
  have hsv : survivors l [⟨nm, c, format, args⟩] = [] := by
    simp [survivors, hnm]
  rw [hsv]
  cases q <;> rfl

/-- C4: every direct `SayAs`/`NoticeAs`/`WarnAs`/`ShoutAs` emission whose
channel name is not in the enabled set writes nothing (and, being a total
function, raises no error); and the scenario `NewLog; Enable("on");
Say("say"); SayAs("off","x"); SayAs("on","on-say")` writes exactly the
timestamped "say" line and the timestamped "on-say" line, in that order,
with the captured sink text splitting into exactly the two lines ending in
"say" and "on-say" and the off-channel line absent. -/
theorem c4_scenario_two_lines (ts1 ts2 ts3 : String)
    (h1 : '\n' ∉ ts1.data) (h3 : '\n' ∉ ts3.data)
    (l : Log) (nm : String) (hnm : nm ∉ l.enabled) :
    (∀ f2 : String, ∀ a2 : List String, ∀ t2 : String,
      l.SayAs nm f2 a2 t2 = [] ∧ l.NoticeAs nm f2 a2 t2 = [] ∧
      l.WarnAs nm f2 a2 t2 = [] ∧ l.ShoutAs nm f2 a2 t2 = []) ∧
    ((initWorld false).run
      [.enable "on", .emit .say "say" [] ts1, .emitAs .say "off" "x" [] ts2,
        .emitAs .say "on" "on-say" [] ts3]).sink =
      [⟨.fgCyan, ts1⟩, ⟨.unstyled, "say\n"⟩, ⟨.fgCyan, ts3⟩,
        ⟨.unstyled, "on-say\n"⟩] ∧
    Log.SayAs (NewLog.Enable "on") "off" "x" [] ts2 = [] ∧
    splitLines (sinkText ((initWorld false).run
      [.enable "on", .emit .say "say" [] ts1, .emitAs .say "off" "x" [] ts2,
        .emitAs .say "on" "on-say" [] ts3]).sink).data =
      [(ts1 ++ "say").data, (ts3 ++ "on-say").data] := by
  have hs : ((initWorld false).run
      [.enable "on", .emit .say "say" [] ts1, .emitAs .say "off" "x" [] ts2,
        .emitAs .say "on" "on-say" [] ts3]).sink =
      [⟨.fgCyan, ts1⟩, ⟨.unstyled, "say\n"⟩, ⟨.fgCyan, ts3⟩,
        ⟨.unstyled, "on-say\n"⟩] := rfl
  refine ⟨?_, hs, rfl, ?_⟩
  · intro f2 a2 t2
    exact ⟨output_disabled_single l l.quiet nm hnm _ f2 a2 t2,
      output_disabled_single l l.quiet nm hnm _ f2 a2 t2,
      output_disabled_single l l.quiet nm hnm _ f2 a2 t2,
      output_disabled_single l l.quiet nm hnm _ f2 a2 t2⟩
  rw [hs]
  have htext : (sinkText [⟨.fgCyan, ts1⟩, ⟨.unstyled, "say\n"⟩, ⟨.fgCyan, ts3⟩,
      ⟨.unstyled, "on-say\n"⟩]).data =
      (ts1 ++ "say").data ++ '\n' :: ((ts3 ++ "on-say").data ++ ['\n']) := by
    simp [sinkText, String.join, String.data_append]
  rw [htext]
  rw [splitLines_two ((ts1 ++ "say").data) ((ts3 ++ "on-say").data) ?_ ?_]
  · rw [String.data_append]
    intro hmem
    rcases List.mem_append.1 hmem with h | h
    · exact h1 h
    · exact absurd h (by decide)
  · rw [String.data_append]
    intro hmem
    rcases List.mem_append.1 hmem with h | h
    · exact h3 h
    · exact absurd h (by decide)

/-- Witness for C4 with concrete timestamps, a concrete logger and the
concrete disabled channel "off". -/
theorem c4_scenario_two_lines_witness :
    '\n' ∉ "12:00:01: ".data ∧ '\n' ∉ "12:00:03: ".data ∧
    "off" ∉ NewLog.enabled ∧
    ((∀ f2 : String, ∀ a2 : List String, ∀ t2 : String,
      NewLog.SayAs "off" f2 a2 t2 = [] ∧ NewLog.NoticeAs "off" f2 a2 t2 = [] ∧
      NewLog.WarnAs "off" f2 a2 t2 = [] ∧ NewLog.ShoutAs "off" f2 a2 t2 = []) ∧
    ((initWorld false).run
      [.enable "on", .emit .say "say" [] "12:00:01: ",
        .emitAs .say "off" "x" [] "12:00:02: ",
        .emitAs .say "on" "on-say" [] "12:00:03: "]).sink =
      [⟨.fgCyan, "12:00:01: "⟩, ⟨.unstyled, "say\n"⟩, ⟨.fgCyan, "12:00:03: "⟩,
        ⟨.unstyled, "on-say\n"⟩] ∧
    Log.SayAs (NewLog.Enable "on") "off" "x" [] "12:00:02: " = [] ∧
    splitLines (sinkText ((initWorld false).run
      [.enable "on", .emit .say "say" [] "12:00:01: ",
        .emitAs .say "off" "x" [] "12:00:02: ",
        .emitAs .say "on" "on-say" [] "12:00:03: "]).sink).data =
      [("12:00:01: " ++ "say").data, ("12:00:03: " ++ "on-say").data]) :=
  ⟨by decide, by decide, by decide,
   c4_scenario_two_lines "12:00:01: " "12:00:02: " "12:00:03: " (by decide)
     (by decide) NewLog "off" (by decide)⟩

/-- Identifier of one flush operation (one `output` call: a direct emission
or one `Group.Done()`). -/
abbrev Pid := Nat

/-- Atomic actions a flush performs on the shared Logger: take the mutex
(`l.mu.Lock()`), write one rendered chunk to the sink, release the mutex
(the deferred `l.mu.Unlock()`). -/
inductive FlushAct where
  | acq
  | wr (w : Write)
  | rel
deriving DecidableEq, Repr

/-- An interleaved execution of several flush operations. -/
abbrev Trace := List (Pid × FlushAct)

/-- Mutex discipline: a trace is valid from a given lock owner when every
acquire happens with the lock free and every write or release is performed
by the current owner. -/
def validFrom : Option Pid → Trace → Bool
  | none, [] => true
  | some _, [] => true
  | none, (p, .acq) :: tr => validFrom (some p) tr
  | none, (_, .wr _) :: _ => false
  | none, (_, .rel) :: _ => false
  | some _, (_, .acq) :: _ => false
  | some q, (p, .wr _) :: tr => q = p && validFrom (some q) tr
  | some q, (p, .rel) :: tr => q = p && validFrom none tr

/-- The sequence of write events of a trace, with their issuing flush. -/
def writesOf : Trace → List (Pid × Write)
  | [] => []
  | (q, act) :: tr =>
    match act with
    | .wr w => (q, w) :: writesOf tr
    | _ => writesOf tr

/-- How many times a flush operation acquires the lock in a trace. -/
def acqCount (p : Pid) : Trace → Nat
  | [] => 0
  | (q, act) :: tr =>
    match act with
    | .acq => (if q = p then 1 else 0) + acqCount p tr
    | _ => acqCount p tr

/-- The trace of one uninterfered flush: lock, write the rendered batch in
order, unlock — exactly the body of `output` under `l.mu.Lock()`. -/
def flushTrace (p : Pid) (ws : List Write) : Trace :=
  (p, .acq) :: (ws.map fun w => (p, .wr w)) ++ [(p, .rel)]

/-- While some other flush holds the lock and `p` never acquires it, `p`
cannot write. -/
theorem trace_no_writes (p : Pid) :
    ∀ (tr : Trace) (o : Option Pid), validFrom o tr = true → o ≠ some p →
      acqCount p tr = 0 → ∀ e ∈ writesOf tr, e.1 ≠ p := by
  intro tr
  induction tr with
  | nil => intro o _ _ _ e he; simp [writesOf] at he
  | cons hd tl ih =>
    intro o hv ho hc e he
    obtain ⟨q, act⟩ := hd
    cases act with
    | acq =>
      cases o with
      | some q' => simp [validFrom] at hv
      | none =>
        simp only [validFrom] at hv
        have hq : ¬ q = p := by
          intro h
          rw [h] at hc
          simp [acqCount] at hc
        have hc' : acqCount p tl = 0 := by
          simpa [acqCount, hq] using hc
        have ho' : some q ≠ some p := by
          intro h
          exact hq (Option.some.inj h)
        exact ih (some q) hv ho' hc' e (by simpa [writesOf] using he)
    | wr w =>
      cases o with
      | none => simp [validFrom] at hv
      | some q' =>
        simp only [validFrom, Bool.and_eq_true, decide_eq_true_eq] at hv
        have hc' : acqCount p tl = 0 := by simpa [acqCount] using hc
        simp only [writesOf, List.mem_cons] at he
        rcases he with he | he
        · rw [he]
          show q ≠ p
          rw [← hv.1]
          intro h
          exact ho (by rw [h])
        · exact ih (some q') hv.2 ho hc' e he
    | rel =>
      cases o with
      | none => simp [validFrom] at hv
      | some q' =>
        simp only [validFrom, Bool.and_eq_true, decide_eq_true_eq] at hv
        have hc' : acqCount p tl = 0 := by simpa [acqCount] using hc
        exact ih none hv.2 (by intro h; cases h) hc' e
          (by simpa [writesOf] using he)

/-- Inside `p`'s critical section (and with no re-acquisition ahead), the
write sequence is `p`'s own writes followed by writes of others only. -/
theorem trace_crit (p : Pid) :
    ∀ tr : Trace, validFrom (some p) tr = true → acqCount p tr = 0 →
      ∃ b c, writesOf tr = b ++ c ∧ (∀ e ∈ b, e.1 = p) ∧
        (∀ e ∈ c, e.1 ≠ p) := by
  intro tr
  induction tr with
  | nil => exact fun _ _ => ⟨[], [], rfl, by simp, by simp⟩
  | cons hd tl ih =>
    intro hv hc
    obtain ⟨q, act⟩ := hd
    cases act with
    | acq => simp [validFrom] at hv
    | wr w =>
      simp only [validFrom, Bool.and_eq_true, decide_eq_true_eq] at hv
      have hc' : acqCount p tl = 0 := by simpa [acqCount] using hc
      obtain ⟨b, c, hbc, hb, hcnot⟩ := ih hv.2 hc'
      refine ⟨(q, w) :: b, c, ?_, ?_, hcnot⟩
      · simp [writesOf, hbc]
      · intro e hee
        rcases List.mem_cons.1 hee with h | h
        · rw [h]; exact hv.1.symm
        · exact hb e h
    | rel =>
      simp only [validFrom, Bool.and_eq_true, decide_eq_true_eq] at hv
      have hc' : acqCount p tl = 0 := by simpa [acqCount] using hc
      refine ⟨[], writesOf tl, by simp [writesOf], by simp, ?_⟩
      exact trace_no_writes p tl none hv.2 (by intro h; cases h) hc'

/-- In any lock-respecting trace in which flush `p` acquires the mutex at
most once, `p`'s writes form one contiguous block of the interleaved write
sequence. -/
theorem trace_block (p : Pid) :
    ∀ (tr : Trace) (o : Option Pid), validFrom o tr = true → o ≠ some p →
      acqCount p tr ≤ 1 →
      ∃ a b c, writesOf tr = a ++ b ++ c ∧ (∀ e ∈ a, e.1 ≠ p) ∧
        (∀ e ∈ b, e.1 = p) ∧ (∀ e ∈ c, e.1 ≠ p) := by
  intro tr
  induction tr with
  | nil => exact fun o _ _ _ => ⟨[], [], [], rfl, by simp, by simp, by simp⟩
  | cons hd tl ih =>
    intro o hv ho hc
    obtain ⟨q, act⟩ := hd
    cases act with
    | acq =>
      cases o with
      | some q' => simp [validFrom] at hv
      | none =>
        simp only [validFrom] at hv
        by_cases hq : q = p
        · subst hq
          have hc' : acqCount q tl = 0 := by
            simp [acqCount] at hc
            omega
          obtain ⟨b, c, hbc, hb, hcnot⟩ := trace_crit q tl hv hc'
          exact ⟨[], b, c, by simpa [writesOf] using hbc, by simp, hb, hcnot⟩
        · have hc' : acqCount p tl ≤ 1 := by simpa [acqCount, hq] using hc
          exact ih (some q) hv (fun h => hq (Option.some.inj h)) hc'
    | wr w =>
      cases o with
      | none => simp [validFrom] at hv
      | some q' =>
        simp only [validFrom, Bool.and_eq_true, decide_eq_true_eq] at hv
        have hc' : acqCount p tl ≤ 1 := by simpa [acqCount] using hc
        obtain ⟨a, b, c, habc, ha, hb, hcnot⟩ := ih (some q') hv.2 ho hc'
        refine ⟨(q, w) :: a, b, c, ?_, ?_, hb, hcnot⟩
        · simp [writesOf, habc]
        · intro e hee
          rcases List.mem_cons.1 hee with h | h
          · rw [h]
            show q ≠ p
            rw [← hv.1]
            intro h2
            exact ho (by rw [h2])
          · exact ha e h
    | rel =>
      cases o with
      | none => simp [validFrom] at hv
      | some q' =>
        simp only [validFrom, Bool.and_eq_true, decide_eq_true_eq] at hv
        have hc' : acqCount p tl ≤ 1 := by simpa [acqCount] using hc
        obtain ⟨a, b, c, habc, ha, hb, hcnot⟩ :=
          ih none hv.2 (by intro h; cases h) hc'
        exact ⟨a, b, c, by simpa [writesOf] using habc, ha, hb, hcnot⟩

/-- Acquire counting is insensitive to restricting the trace to `p`'s own
actions. -/
theorem acqCount_filter (p : Pid) :
    ∀ tr : Trace, acqCount p (tr.filter fun e => e.1 == p) = acqCount p tr := by
  intro tr
  induction tr with
  | nil => rfl
  | cons hd tl ih =>
    obtain ⟨q, act⟩ := hd
    by_cases hq : q = p
    · cases act <;> simp [List.filter_cons, hq, acqCount, ih]
    · cases act <;> simp [List.filter_cons, hq, acqCount, ih]

/-- Extracting writes commutes with restricting to `p`'s actions. -/
theorem writesOf_filter (p : Pid) :
    ∀ tr : Trace,
      writesOf (tr.filter fun e => e.1 == p) =
        (writesOf tr).filter fun e => e.1 == p := by
  intro tr
  induction tr with
  | nil => rfl
  | cons hd tl ih =>
    obtain ⟨q, act⟩ := hd
    by_cases hq : q = p
    · cases act <;> simp [List.filter_cons, hq, writesOf, ih]
    · cases act <;> simp [List.filter_cons, hq, writesOf, ih]

/-- The writes of the write-then-release tail of a flush. -/
theorem writesOf_wrs (p : Pid) :
    ∀ ws : List Write,
      writesOf ((ws.map fun w => (p, FlushAct.wr w)) ++ [(p, FlushAct.rel)]) =
        ws.map fun w => (p, w) := by
  intro ws
  induction ws with
  | nil => rfl
  | cons w ws ih => simp [writesOf, ih]

/-- The writes of one whole flush are exactly its rendered batch, in order. -/
theorem writesOf_flushTrace (p : Pid) (ws : List Write) :
    writesOf (flushTrace p ws) = ws.map fun w => (p, w) := by
  have h := writesOf_wrs p ws
  simpa [flushTrace, writesOf] using h

/-- The write-then-release tail of a flush acquires nothing. -/
theorem acqCount_wrs (p : Pid) :
    ∀ ws : List Write,
      acqCount p ((ws.map fun w => (p, FlushAct.wr w)) ++ [(p, FlushAct.rel)]) =
        0 := by
  intro ws
  induction ws with
  | nil => rfl
  | cons w ws ih => simpa [acqCount] using ih

/-- One flush acquires the lock exactly once. -/
theorem acqCount_flushTrace (p : Pid) (ws : List Write) :
    acqCount p (flushTrace p ws) = 1 := by
  have h := acqCount_wrs p ws
  simp [flushTrace, acqCount, h]

/-- C1: in every mutex-respecting interleaving in which flush `p` performs
exactly one `Done()` batch — lock, the writes `output` renders for the
group's buffer, unlock — the rendered batch appears contiguously in the
interleaved write sequence, in order, with no write from any other
concurrent flush in between. -/
theorem c1_done_batch_contiguous (l : Log) (g : group) (ts : String)
    (p : Pid) (tr : Trace)
    (hval : validFrom none tr = true)
    (hproj : tr.filter (fun e => e.1 == p) = flushTrace p (g.Done l ts)) :
    ∃ x z,
      writesOf tr = x ++ ((g.Done l ts).map fun w => (p, w)) ++ z ∧
        (∀ e ∈ x, e.1 ≠ p) ∧ (∀ e ∈ z, e.1 ≠ p) := by
  have hacq : acqCount p tr = 1 := by
    rw [← acqCount_filter p tr, hproj, acqCount_flushTrace]
  obtain ⟨a, b, c, habc, ha, hb, hcnot⟩ :=
    trace_block p tr none hval (by intro h; cases h) (by omega)
  have hbfil : (writesOf tr).filter (fun e => e.1 == p) = b := by
    rw [habc, List.filter_append, List.filter_append]
    have h1 : a.filter (fun e => e.1 == p) = [] :=
      List.filter_eq_nil_iff.2 fun e he => by simp [ha e he]
    have h2 : b.filter (fun e => e.1 == p) = b :=
      List.filter_eq_self.2 fun e he => by simp [hb e he]
    have h3 : c.filter (fun e => e.1 == p) = [] :=
      List.filter_eq_nil_iff.2 fun e he => by simp [hcnot e he]
    rw [h1, h2, h3]
    simp
  have hbmap : b = (g.Done l ts).map fun w => (p, w) := by
    rw [← hbfil, ← writesOf_filter, hproj, writesOf_flushTrace]
  rw [hbmap] at habc
  exact ⟨a, c, habc, ha, hcnot⟩

/-- Witness for C1: flush 0 is a two-line `Done()` batch, flush 1 a
concurrent single write, serialized by the lock. -/
theorem c1_done_batch_contiguous_witness :
    validFrom none
        (flushTrace 1 [⟨Color.unstyled, "x"⟩] ++
          flushTrace 0 (group.Done
            ⟨DefaultPalette, [⟨"", Color.unstyled, "a", []⟩], false⟩
            NewLog "T: ")) = true ∧
    (flushTrace 1 [⟨Color.unstyled, "x"⟩] ++
        flushTrace 0 (group.Done
          ⟨DefaultPalette, [⟨"", Color.unstyled, "a", []⟩], false⟩
          NewLog "T: ")).filter (fun e => e.1 == 0) =
      flushTrace 0 (group.Done
        ⟨DefaultPalette, [⟨"", Color.unstyled, "a", []⟩], false⟩
        NewLog "T: ") ∧
    ∃ x z,
      writesOf (flushTrace 1 [⟨Color.unstyled, "x"⟩] ++
          flushTrace 0 (group.Done
            ⟨DefaultPalette, [⟨"", Color.unstyled, "a", []⟩], false⟩
            NewLog "T: ")) =
        x ++ ((group.Done
            ⟨DefaultPalette, [⟨"", Color.unstyled, "a", []⟩], false⟩
            NewLog "T: ").map fun w => ((0 : Pid), w)) ++ z ∧
        (∀ e ∈ x, e.1 ≠ 0) ∧ (∀ e ∈ z, e.1 ≠ 0) :=
  ⟨by decide, by decide,
   c1_done_batch_contiguous NewLog
     ⟨DefaultPalette, [⟨"", Color.unstyled, "a", []⟩], false⟩ "T: " 0
     (flushTrace 1 [⟨Color.unstyled, "x"⟩] ++
       flushTrace 0 (group.Done
         ⟨DefaultPalette, [⟨"", Color.unstyled, "a", []⟩], false⟩
         NewLog "T: "))
     (by decide) (by decide)⟩

/-- Modelled from the spec: the internal severity constants of the
repository's rendering helper.  The stream code in the repository calls a
`format(timestamp, sev, format, args)` helper with tags `say`, `notice`,
`warn`, `shout`, but the file defining the constants and the helper is not
part of the sources at hand; per the spec they are the four fixed internal
severity tags. -/
def say : Nat := 0

/-- Modelled from the spec: internal severity tag for Notice. -/
def notice : Nat := 1

/-- Modelled from the spec: internal severity tag for Warn. -/
def warn : Nat := 2

/-- Modelled from the spec: internal severity tag for Shout. -/
def shout : Nat := 3

/-- Modelled from the spec: the severity-to-style selection inside the
rendering helper.  An unrecognized severity tag is a programmer error and is
fatal (abort); the abort is modelled as `none`, any successful style lookup
as `some`. -/
def styleFor (p : Palette) (sev : Nat) : Option Color :=
  if sev = say then some p.say
  else if sev = notice then some p.notice
  else if sev = warn then some p.warn
  else if sev = shout then some p.shout
  else none

/-- The severity tags the public API can construct: each emission method
family passes exactly one of the four constants. -/
def apiSevs : List Nat := [say, notice, warn, shout]

/-- C9: an unrecognized severity tag makes the rendering path abort, and the
abort branch is unreachable from the public API — every caller-reachable
severity is one of the four fixed tags, and each of those renders to a
style. -/
theorem c9_unknown_severity_fatal_unreachable (p : Palette) (sev : Nat)
    (hbad : sev ∉ apiSevs) :
    styleFor p sev = none ∧
    ∀ s ∈ apiSevs, ∃ c, styleFor p s = some c := by
  constructor
  · simp only [apiSevs, List.mem_cons, List.not_mem_nil, or_false, not_or] at hbad
    obtain ⟨h0, h1, h2, h3⟩ := hbad
    simp [styleFor, h0, h1, h2, h3]
  · intro s hs
    simp only [apiSevs, List.mem_cons, List.not_mem_nil, or_false] at hs
    rcases hs with h | h | h | h <;> rw [h]
    · exact ⟨p.say, by simp [styleFor]⟩
    · exact ⟨p.notice, by simp [styleFor, notice, say]⟩
    · exact ⟨p.warn, by simp [styleFor, warn, notice, say]⟩
    · exact ⟨p.shout, by simp [styleFor, shout, warn, notice, say]⟩

/-- Witness for C9 at the concrete unrecognized tag 7. -/
theorem c9_unknown_severity_fatal_unreachable_witness :
    (7 : Nat) ∉ apiSevs ∧
    (styleFor DefaultPalette 7 = none ∧
      ∀ s ∈ apiSevs, ∃ c, styleFor DefaultPalette s = some c) :=
  ⟨by decide, c9_unknown_severity_fatal_unreachable DefaultPalette 7 (by decide)⟩
